import Mathlib

/-!
Verification of the degiro-connector custom trading API core against its
specification.  The definitions below are shallow embeddings of the Python
functions in `src/custom-trading/api/main.py` and
`src/_tests/leveraged_products_api.py`; machine floats are modelled as exact
rationals, Python dicts as association lists with replace-on-insert (or as
finitely supported functions), and raised exceptions as `Except` errors.
-/

/-! ## String helpers (Python `str.lower`, `str.upper`, `in`, `startswith`, `split('.')[-1]`) -/

/-- ASCII lower-casing of one character, as Python `str.lower` does for ASCII. -/
def lcChar (c : Char) : Char :=
  if 65 ≤ c.toNat ∧ c.toNat ≤ 90 then Char.ofNat (c.toNat + 32) else c

/-- ASCII upper-casing of one character, as Python `str.upper` does for ASCII. -/
def ucChar (c : Char) : Char :=
  if 97 ≤ c.toNat ∧ c.toNat ≤ 122 then Char.ofNat (c.toNat - 32) else c

/-- Python `s.lower()` (ASCII fragment). -/
def lcStr (s : String) : String := String.mk (s.toList.map lcChar)

/-- Python `s.upper()` (ASCII fragment). -/
def ucStr (s : String) : String := String.mk (s.toList.map ucChar)

/-- Is the second list a prefix of the first? -/
def listStarts : List Char → List Char → Bool
  | _, [] => true
  | [], _ :: _ => false
  | a :: s, b :: t => a = b && listStarts s t

/-- Does the needle occur as a contiguous sublist of the haystack? -/
def listHasSub (needle : List Char) : List Char → Bool
  | [] => needle.isEmpty
  | c :: rest => listStarts (c :: rest) needle || listHasSub needle rest

/-- Python `needle in hay` on strings. -/
def strContains (hay needle : String) : Bool := listHasSub needle.toList hay.toList

/-- Python `s.startswith(p)`. -/
def strStarts (s p : String) : Bool := listStarts s.toList p.toList

/-- Python `s.split('.')[-1]`: the last dot-separated component of a string. -/
def lastCompGo (cur : List Char) : List Char → List Char
  | [] => cur
  | c :: rest => if c = '.' then lastCompGo [] rest else lastCompGo (cur ++ [c]) rest

/-- Short field name: composite name with everything up to the last dot stripped. -/
def shortNameOf (s : String) : String := String.mk (lastCompGo [] s.toList)

/-! ## Python-dict association lists (insertion order preserved, replace on re-insert) -/

/-- Python `d[k] = v` on a dict represented as an insertion-ordered association
list: replace in place if the key is present, else append. -/
def dictInsert (m : List (Nat × α)) (k : Nat) (v : α) : List (Nat × α) :=
  if m.any (fun p => p.1 == k) then
    m.map (fun p => if p.1 == k then (k, v) else p)
  else m ++ [(k, v)]

/-- Python `d.get(k)` / `d[k]` lookup on the association list. -/
def dictGet (m : List (Nat × α)) (k : Nat) : Option α :=
  (m.find? (fun p => p.1 == k)).map (fun p => p.2)

/-! ## Wire protocol decoding
The quotecast wire frame is a JSON array of records with discriminator `m`:
`a_req` registers a composite field name to a numeric field id, `un` and `us`
carry a numeric/string value keyed by field id.  Embedding of the decode loop
in `get_volume_data`, `src/custom-trading/api/main.py` lines 995-1031. -/

/-- Wire value: numeric (`un`) or string (`us`) payload. -/
inductive WireVal
  | num (q : ℚ)
  | str (s : String)
deriving DecidableEq

/-- One record of the wire frame. -/
inductive WireRecord
  | areq (name : String) (fid : Nat)
  | un (fid : Nat) (val : ℚ)
  | us (fid : Nat) (val : String)
deriving DecidableEq

/-- One iteration of the decode loop: an `a_req` whose composite name starts
with the feed id of interest registers `fid -> short name` in `field_map`;
`un` and `us` store their payload in `values` keyed by field id. -/
def decodeStep (vwd : String) (st : List (Nat × String) × List (Nat × WireVal)) :
    WireRecord → List (Nat × String) × List (Nat × WireVal)
  | WireRecord.areq name fid =>
      if strStarts name vwd then (dictInsert st.1 fid (shortNameOf name), st.2) else st
  | WireRecord.un fid v => (st.1, dictInsert st.2 fid (WireVal.num v))
  | WireRecord.us fid v => (st.1, dictInsert st.2 fid (WireVal.str v))

/-- The single pass over the frame building `field_map` and `values`. -/
def decodeFrame (records : List WireRecord) (vwd : String) :
    List (Nat × String) × List (Nat × WireVal) :=
  records.foldl (decodeStep vwd) ([], [])

/-- Extraction of one named field after the pass, mirroring the loop
`for field_id, field_name in field_map.items(): if field_name == N and
field_id in values: x = values[field_id]` generalised over the field name. -/
def decodeField (records : List WireRecord) (vwd fieldName : String) : Option WireVal :=
  (decodeFrame records vwd).1.foldl
    (fun acc p =>
      if p.2 == fieldName && (decodeFrame records vwd).2.any (fun q => q.1 == p.1) then
        dictGet (decodeFrame records vwd).2 p.1
      else acc)
    none

/-- Projection of a record to its `field_map` contribution (registration records
whose composite name starts with the feed id of interest). -/
def aReqProj (vwd : String) : WireRecord → Option (Nat × String)
  | WireRecord.areq name fid =>
      if strStarts name vwd then some (fid, shortNameOf name) else none
  | _ => none

/-- Projection of a record to its `values` contribution (value records). -/
def valProj : WireRecord → Option (Nat × WireVal)
  | WireRecord.un fid v => some (fid, WireVal.num v)
  | WireRecord.us fid v => some (fid, WireVal.str v)
  | _ => none

/-! ## Session-expiry heuristic and the reconnect-once retry
Embedding of `is_session_expired` (`main.py` lines 331-348) and of the retry
skeleton of `get_volume_data` (`main.py` lines 928-1084): the body of the
fetch is abstracted as `attempt`, the global reconnect as `reconnect`, and the
second component counts how many network attempts were performed. -/

/-- Heuristic detection of DEGIRO session expiry from error text
(`is_session_expired`, `main.py` lines 331-348). -/
def is_session_expired (msg : String) : Bool :=
  let l := lcStr msg
  strContains l "401" ||
  strContains l "unauthorized" ||
  (strContains l "session" && (strContains l "expired" || strContains l "invalid")) ||
  strContains l "login" ||
  strContains l "authentication" ||
  strContains l "credential"

/-- Exceptions escaping the retried call are re-raised wrapped as a reconnect
failure (`main.py` lines 1078-1082 catch any exception of the retry block). -/
def wrapRetryFailure : Except String α → Except String α
  | Except.ok v => Except.ok v
  | Except.error e => Except.error ("Session expired and reconnect failed: " ++ e)

/-- Message of a failed computation (empty for a success). -/
def errMsg : Except String β → String
  | Except.ok _ => ""
  | Except.error e => e

/-- Retry skeleton of `get_volume_data`: run the attempt; on an error that
classifies as session expiry at retry depth 0, reconnect and retry once at
depth 1; any other failure (or a failure at depth 1) is a hard error.  The
second component is the number of attempts performed. -/
def getVolumeData (attempt : Nat → Except String α) (reconnect : Except String Unit)
    (depth : Nat) : Except String α × Nat :=
  match attempt depth with
  | Except.ok v => (Except.ok v, 1)
  | Except.error e =>
    if h : is_session_expired e = true ∧ depth = 0 then
      if reconnect.isOk then
        let r := getVolumeData attempt reconnect 1
        (wrapRetryFailure r.1, r.2 + 1)
      else
        (Except.error ("Session expired and reconnect failed: " ++ errMsg reconnect), 1)
    else (Except.error ("Volume data fetch failed: " ++ e), 1)
termination_by 1 - depth
decreasing_by
  have h2 : depth = 0 := h.2
  omega

/-! ## Batch price extraction (`get_real_prices_batch`, `main.py` lines 706-736)
The parsed dataframe is a list of rows; each row optionally carries LastPrice,
BidPrice, AskPrice.  The `source` field is ghost data recording which resolved
instrument's feed actually produced the row — the Python code cannot see it
(the dataframe has no feed-id column) and correlates rows to the resolved
product ids positionally. -/

/-- One decoded price row, together with the ghost `source` of the row. -/
structure PriceRow where
  source : String
  last : Option ℚ
  bid : Option ℚ
  ask : Option ℚ
deriving DecidableEq

/-- The `PriceInfo` record returned per product id. -/
structure PriceInfo where
  bid : Option ℚ
  ask : Option ℚ
  last : Option ℚ
deriving DecidableEq

/-- Python floor division of a rational, used to build half-even rounding. -/
def ratFloorZ (q : ℚ) : ℤ := Int.fdiv q.num q.den

/-- Round a rational to the nearest integer, ties to even (Python `round`). -/
def roundHalfEven (q : ℚ) : ℤ :=
  let n := ratFloorZ q
  let f := q - (n : ℚ)
  if f < 1 / 2 then n
  else if 1 / 2 < f then n + 1
  else if n % 2 = 0 then n else n + 1

/-- Python `round(x, 2)`. -/
def round2 (q : ℚ) : ℚ := (roundHalfEven (q * 100) : ℚ) / 100

/-- Build the `PriceInfo` of a row: each field is present only if the wire
value decoded, and is rounded to two decimals (`main.py` lines 725-733). -/
def mkPriceInfo (r : PriceRow) : PriceInfo :=
  { bid := r.bid.map round2, ask := r.ask.map round2, last := r.last.map round2 }

/-- Row loop of `get_real_prices_batch` (`main.py` lines 709-733): a row is
used only if its LastPrice decoded; its product id is the positionally
matching resolved id when row count equals resolved count, else the first
resolved id; falsy (empty) product ids are skipped. -/
def extractGo (ids : List String) (total : Nat) :
    List PriceRow → Nat → (String → Option PriceInfo) → String → Option PriceInfo
  | [], _, m => m
  | r :: rest, i, m =>
    extractGo ids total rest (i + 1)
      (if r.last.isSome then
        match (if total = ids.length then ids.get? i else ids.head?) with
        | some pid => if pid = "" then m else Function.update m pid (some (mkPriceInfo r))
        | none => m
      else m)

/-- The result map of `get_real_prices_batch` restricted to its extraction
phase: `ids` are the product ids that resolved to a vwdId (in order), `rows`
the decoded dataframe rows. -/
def extractPrices (rows : List PriceRow) (ids : List String) : String → Option PriceInfo :=
  extractGo ids rows.length rows 0 (fun _ => none)

/-! ## Exhaustive pagination (`search_leveraged_products` endpoint,
`main.py` lines 1350-1397).  A well-behaved backing catalog holds `items`;
the page at `offset` is the slice of at most `pageSize` items starting there,
and the server-reported total is `items.length`. -/

/-- Pagination loop: fetch the page at `offset`; stop on an empty page, or —
after appending — when the reported total is nonzero and has been reached;
otherwise advance the offset by the page size. -/
def fetchPages (items : List α) (pageSize total offset : Nat) (acc : List α) : List α :=
  if ((items.drop offset).take pageSize).isEmpty then acc
  else
    let acc' := acc ++ (items.drop offset).take pageSize
    if total ≠ 0 ∧ total ≤ acc'.length then acc'
    else fetchPages items pageSize total (offset + pageSize) acc'
termination_by items.length - offset
decreasing_by
  rename_i hemp _
  rw [List.isEmpty_iff, List.take_eq_nil_iff] at hemp
  push_neg at hemp
  have h2 := hemp.2
  rw [ne_eq, List.drop_eq_nil_iff] at h2
  omega

/-! ## Leveraged-product filtering (`main.py` lines 1404, 1426-1441) -/

/-- A leveraged product as returned by the catalog search. -/
structure LevProduct where
  name : String
  leverage : ℚ
  shortlong : String
  tradable : Bool
deriving DecidableEq

/-- Direction code requested from an action string:
`target_direction = "L" if request.action.upper() == "LONG" else "S"`. -/
def targetDirection (action : String) : String :=
  if ucStr action = "LONG" then "L" else "S"

/-- Filter loop (`main.py` lines 1426-1441): keep products inside the leverage
range with the requested direction that are tradable, stopping once the
requested limit of matches has been collected. -/
def filterLevGo (minL maxL : ℚ) (dir : String) (lim : Nat) :
    List LevProduct → List LevProduct → List LevProduct
  | [], acc => acc
  | p :: rest, acc =>
    let acc' :=
      if minL ≤ p.leverage ∧ p.leverage ≤ maxL ∧ p.shortlong = dir ∧ p.tradable = true then
        acc ++ [p]
      else acc
    if lim ≤ acc'.length then acc' else filterLevGo minL maxL dir lim rest acc'

/-- The leveraged-search post-fetch filter. -/
def filterLev (products : List LevProduct) (minL maxL : ℚ) (action : String)
    (lim : Nat) : List LevProduct :=
  filterLevGo minL maxL (targetDirection action) lim products []

/-! ## Tiered leverage ranking (`leverage_priority`,
`src/_tests/leveraged_products_api.py` lines 180-192) -/

/-- Sort key of a product's leverage for a target leverage: a fixed-band tier
(products with leverage in the range 4 to 5 first, then 3 to 4, then 5 to 7,
then the rest) with the absolute distance to the target as tie-breaker. -/
def leverage_priority (target lev : ℚ) : Nat × ℚ :=
  if 4 ≤ lev ∧ lev ≤ 5 then (0, |lev - target|)
  else if 3 ≤ lev ∧ lev < 4 then (1, |lev - target|)
  else if 5 < lev ∧ lev ≤ 7 then (2, |lev - target|)
  else (3, |lev - target|)

/-- Lexicographic comparison of sort keys, as Python compares tuples. -/
def keyLeB (x y : Nat × ℚ) : Bool :=
  decide (x.1 < y.1) || (decide (x.1 = y.1) && decide (x.2 ≤ y.2))

/-- Python `leveraged_products.sort(key=leverage_priority)`: a stable sort by
the tiered key. -/
def sortByPriority (target : ℚ) (ps : List LevProduct) : List LevProduct :=
  ps.mergeSort (fun a b => keyLeB (leverage_priority target a.leverage)
    (leverage_priority target b.leverage))

/-! ## Universal stock resolver (`search_stock_universal`,
`main.py` lines 434-478) -/

/-- A stock search candidate. -/
structure StockProduct where
  isin : String
  symbol : String
  name : String
deriving DecidableEq

/-- Embedding of `search_stock_universal` over the candidate list returned by
the search: exact ISIN match, then exact symbol match against the upper-cased
query, then case-insensitive substring match of the query inside the name,
then the first result; `none` when there are no candidates. -/
def searchStockUniversal (products : List StockProduct) (query : String) :
    Option StockProduct :=
  if products.isEmpty then none
  else
    match products.find? (fun p => p.isin == query) with
    | some p => some p
    | none =>
      match products.find? (fun p => p.symbol == ucStr query) with
      | some p => some p
      | none =>
        match products.find? (fun p => strContains (lcStr p.name) (lcStr query)) with
        | some p => some p
        | none => products.head?

/-- Modelled from the spec: the five-strategy resolver the specification
describes (ISIN equality, exact symbol equality, substring in name, substring
in symbol, first result), written as an ordered-fallback chain. -/
def resolveClaimed (products : List StockProduct) (query : String) :
    Option StockProduct :=
  (products.filter (fun p => p.isin == query)).head? <|>
  (products.filter (fun p => p.symbol == ucStr query)).head? <|>
  (products.filter (fun p => strContains (lcStr p.name) (lcStr query))).head? <|>
  (products.filter (fun p => strContains (lcStr p.symbol) (lcStr query))).head? <|>
  products.head?

/-- Modelled from the spec, amended: the four-strategy ordered-fallback chain
actually present in `search_stock_universal` (no substring-in-symbol step). -/
def resolveAmended (products : List StockProduct) (query : String) :
    Option StockProduct :=
  (products.filter (fun p => p.isin == query)).head? <|>
  (products.filter (fun p => p.symbol == ucStr query)).head? <|>
  (products.filter (fun p => strContains (lcStr p.name) (lcStr query))).head? <|>
  products.head?

/-! ## Order creation and order checking (`create_degiro_order`,
`main.py` lines 1114-1167, and `check_order`, lines 1656-1691) -/

/-- The inbound order request (`OrderRequest` pydantic model). -/
structure OrderRequest where
  product_id : String
  action : String
  order_type : String
  quantity : ℚ
  price : Option ℚ
  stop_price : Option ℚ
  time_type : String
deriving DecidableEq

/-- Buy/sell action of a DEGIRO order. -/
inductive BuySell
  | buy
  | sell
deriving DecidableEq

/-- DEGIRO order type. -/
inductive DOrderType
  | limit
  | market
  | stopLoss
  | stopLimit
deriving DecidableEq

/-- DEGIRO time type. -/
inductive DTimeType
  | day
  | gtc
deriving DecidableEq

/-- The DEGIRO `Order` object built by `create_degiro_order`. -/
structure DOrder where
  buy_sell : BuySell
  order_type : DOrderType
  product_id : ℤ
  size : ℚ
  time_type : DTimeType
  price : Option ℚ
  stop_price : Option ℚ
deriving DecidableEq

/-- Action parsing step of `create_degiro_order` (`main.py` lines 1119-1124). -/
def parseAction (req : OrderRequest) : Except String BuySell :=
  if ucStr req.action = "BUY" then Except.ok BuySell.buy
  else if ucStr req.action = "SELL" then Except.ok BuySell.sell
  else Except.error ("Invalid action: " ++ req.action)

/-- Order-type parsing step of `create_degiro_order` (`main.py` lines
1127-1142), including the price/stop-price requirements. -/
def parseOrderType (req : OrderRequest) : Except String DOrderType :=
  if ucStr req.order_type = "LIMIT" then
    match req.price with
    | none => Except.error "Price required for LIMIT orders"
    | some _ => Except.ok DOrderType.limit
  else if ucStr req.order_type = "MARKET" then Except.ok DOrderType.market
  else if ucStr req.order_type = "STOP_LOSS" then
    match req.stop_price with
    | none => Except.error "Stop price required for STOP_LOSS orders"
    | some _ => Except.ok DOrderType.stopLoss
  else if ucStr req.order_type = "STOP_LIMIT" then
    match req.price, req.stop_price with
    | some _, some _ => Except.ok DOrderType.stopLimit
    | _, _ => Except.error "Both price and stop_price required for STOP_LIMIT orders"
  else Except.error ("Invalid order type: " ++ req.order_type)

/-- Time-type parsing step of `create_degiro_order` (`main.py` lines 1145-1150). -/
def parseTimeType (req : OrderRequest) : Except String DTimeType :=
  if ucStr req.time_type = "DAY" then Except.ok DTimeType.day
  else if ucStr req.time_type = "GTC" then Except.ok DTimeType.gtc
  else Except.error ("Invalid time type: " ++ req.time_type)

/-- Python `int(request.product_id)` in the `Order` construction
(`main.py` line 1156). -/
def parseProductId (req : OrderRequest) : Except String ℤ :=
  match req.product_id.toInt? with
  | some n => Except.ok n
  | none => Except.error ("invalid literal for int(): " ++ req.product_id)

/-- Embedding of `create_degiro_order`: each `raise ValueError(...)` becomes an
`Except.error`, in the order the checks appear in the source (action, order
type with its price requirements, time type, then integer parse of the
product id). -/
def create_degiro_order (req : OrderRequest) : Except String DOrder :=
  match parseAction req with
  | Except.error e => Except.error e
  | Except.ok bs =>
    match parseOrderType req with
    | Except.error e => Except.error e
    | Except.ok ot =>
      match parseTimeType req with
      | Except.error e => Except.error e
      | Except.ok tt =>
        match parseProductId req with
        | Except.error e => Except.error e
        | Except.ok pid =>
          Except.ok
            { buy_sell := bs, order_type := ot, product_id := pid,
              size := req.quantity, time_type := tt, price := req.price,
              stop_price := req.stop_price }

/-- Broker response to an order check: `none` models a falsy response or one
without a `confirmation_id` attribute. -/
structure CheckConfirmation where
  confirmation_id : String
  transaction_fee : Option ℚ
deriving DecidableEq

/-- The `OrderCheckResponse` returned to the caller. -/
structure OrderCheckResponse where
  valid : Bool
  confirmation_id : Option String
  message : String
  errors : List String
deriving DecidableEq

/-- Embedding of the `check_order` route: build the DEGIRO order (a
`ValueError` is caught and returned as a structured rejection), otherwise
submit it to the broker exactly once; broker exceptions are also caught and
returned as structured rejections.  The second component counts broker
network calls. -/
def check_order (checkFn : DOrder → Except String (Option CheckConfirmation))
    (req : OrderRequest) : OrderCheckResponse × Nat :=
  match create_degiro_order req with
  | Except.error e =>
      ({ valid := false, confirmation_id := none,
         message := "Order validation failed", errors := [e] }, 0)
  | Except.ok o =>
    match checkFn o with
    | Except.ok (some c) =>
        ({ valid := true, confirmation_id := some c.confirmation_id,
           message := "Order validation successful", errors := [] }, 1)
    | Except.ok none =>
        ({ valid := false, confirmation_id := none,
           message := "Order validation failed",
           errors := ["Unknown validation error"] }, 1)
    | Except.error e =>
        ({ valid := false, confirmation_id := none,
           message := "Order validation failed",
           errors := ["DEGIRO error: " ++ e] }, 1)

/-! ## Quantity sizing (`calculate_order_quantity`,
`src/_tests/leveraged_products_api.py` lines 225-236) -/

/-- Python `int(x)` on a rational: truncation toward zero. -/
def pyInt (q : ℚ) : ℤ := Int.tdiv q.num q.den

/-- Embedding of `calculate_order_quantity`: nonpositive price gives
`(0, 0)`; otherwise the integer quotient of amount by price, clamped to at
least one share, together with the exact amount spent. -/
def calculate_order_quantity (price : ℚ) (order_amount : ℚ) : ℤ × ℚ :=
  if price ≤ 0 then (0, 0)
  else
    let quantity := pyInt (order_amount / price)
    (max 1 quantity, (quantity : ℚ) * price)

/-! ## Theorems -/

/-- A first-match loop over a list is the head of its filter. -/
theorem find?_eq_filter_head? (l : List γ) (p : γ → Bool) :
    l.find? p = (l.filter p).head? := by
  induction l with
  | nil => rfl
  | cons a t ih =>
    by_cases h : p a = true
    · simp [List.find?_cons, List.filter_cons, h]
    · simp only [List.find?_cons, List.filter_cons, h, Bool.false_eq_true, if_false]
      simpa [h] using ih

/-- C9: for every target amount and every positive reference price,
`calculate_order_quantity` returns `max 1 (floor (amount / price))` as the
quantity, which is never zero. -/
theorem c9_quantity_floor_clamped (order_amount price : ℚ) (hp : 0 < price) :
    (calculate_order_quantity price order_amount).1 = max 1 ⌊order_amount / price⌋ ∧
    (calculate_order_quantity price order_amount).1 ≠ 0 := by
  have hnp : ¬ price ≤ 0 := not_le.mpr hp
  have hfst : (calculate_order_quantity price order_amount).1
      = max 1 (pyInt (order_amount / price)) := by
    simp only [calculate_order_quantity, if_neg hnp]
  have hkey : max 1 (pyInt (order_amount / price)) = max 1 ⌊order_amount / price⌋ := by
    rcases le_or_lt 0 (order_amount / price) with h0 | h0
    · have hnum : 0 ≤ (order_amount / price).num := Rat.num_nonneg.mpr h0
      have hden : (0 : ℤ) ≤ ((order_amount / price).den : ℤ) := by positivity
      have hpy : pyInt (order_amount / price) = ⌊order_amount / price⌋ := by
        rw [Rat.floor_def]
        exact Int.tdiv_eq_ediv hnum hden
      rw [hpy]
    · have hnum : (order_amount / price).num < 0 := Rat.num_neg.mpr h0
      have hden : (0 : ℤ) ≤ ((order_amount / price).den : ℤ) := by positivity
      have h1 : pyInt (order_amount / price) ≤ 0 := by
        have h2 : 0 ≤ Int.tdiv (-(order_amount / price).num)
            ((order_amount / price).den : ℤ) := Int.tdiv_nonneg (by omega) hden
        rw [Int.neg_tdiv] at h2
        unfold pyInt
        omega
      have h3 : ⌊order_amount / price⌋ ≤ 0 := Int.floor_nonpos h0.le
      omega
  refine ⟨hfst.trans hkey, ?_⟩
  rw [hfst]
  have h4 := le_max_left 1 (pyInt (order_amount / price))
  omega

/-- Witness for C9 at the spec scenario: target amount 250 at reference price
48.30 gives quantity 5, never 0. -/
theorem c9_quantity_floor_clamped_witness :
    ((calculate_order_quantity (mkRat 483 10) 250).1 =
        max 1 ⌊(250 : ℚ) / mkRat 483 10⌋ ∧
      (calculate_order_quantity (mkRat 483 10) 250).1 ≠ 0) ∧
    (calculate_order_quantity (mkRat 483 10) 250).1 = 5 := by
  refine ⟨c9_quantity_floor_clamped 250 (mkRat 483 10) (by decide), ?_⟩
  have hdiv : (250 : ℚ) / mkRat 483 10 = mkRat 2500 483 := by
    rw [Rat.mkRat_eq_div, Rat.mkRat_eq_div]
    norm_num
  have hfst : (calculate_order_quantity (mkRat 483 10) 250).1
      = max 1 (pyInt ((250 : ℚ) / mkRat 483 10)) := by
    simp only [calculate_order_quantity, if_neg (show ¬ mkRat 483 10 ≤ (0:ℚ) from by decide)]
  rw [hfst, hdiv]
  decide

/-- Under any of the three price-omission conditions, the order-type parsing
step of `create_degiro_order` raises. -/
theorem parseOrderType_err (req : OrderRequest)
    (h : (req.order_type = "LIMIT" ∧ req.price = none) ∨
         (req.order_type = "STOP_LOSS" ∧ req.stop_price = none) ∨
         (req.order_type = "STOP_LIMIT" ∧ (req.price = none ∨ req.stop_price = none))) :
    ∃ e, parseOrderType req = Except.error e := by
  unfold parseOrderType
  rcases h with ⟨ht, hp⟩ | ⟨ht, hp⟩ | ⟨ht, hp⟩
  · rw [ht, hp, if_pos (show ucStr "LIMIT" = "LIMIT" from by decide)]
    exact ⟨_, rfl⟩
  · rw [ht, hp, if_neg (show ¬ ucStr "STOP_LOSS" = "LIMIT" from by decide),
      if_neg (show ¬ ucStr "STOP_LOSS" = "MARKET" from by decide),
      if_pos (show ucStr "STOP_LOSS" = "STOP_LOSS" from by decide)]
    exact ⟨_, rfl⟩
  · rw [ht, if_neg (show ¬ ucStr "STOP_LIMIT" = "LIMIT" from by decide),
      if_neg (show ¬ ucStr "STOP_LIMIT" = "MARKET" from by decide),
      if_neg (show ¬ ucStr "STOP_LIMIT" = "STOP_LOSS" from by decide),
      if_pos (show ucStr "STOP_LIMIT" = "STOP_LIMIT" from by decide)]
    rcases hp with hp | hp
    · rw [hp]
      exact ⟨_, rfl⟩
    · cases hq : req.price with
      | none => exact ⟨_, rfl⟩
      | some a => rw [hp]; exact ⟨_, rfl⟩

/-- An order-type parsing failure makes the whole order construction fail. -/
theorem create_degiro_order_err (req : OrderRequest)
    (h : ∃ e, parseOrderType req = Except.error e) :
    ∃ e, create_degiro_order req = Except.error e := by
  obtain ⟨e, he⟩ := h
  unfold create_degiro_order
  cases hpa : parseAction req with
  | error e2 => exact ⟨e2, rfl⟩
  | ok bs => rw [he]; exact ⟨e, rfl⟩

/-- C8: a LIMIT order without price, a STOP_LOSS order without stop price, or
a STOP_LIMIT order missing either, yields a structured rejection (valid =
false, non-empty error list) from order checking without any broker network
call, as a returned value rather than an uncaught exception. -/
theorem c8_local_rejection (checkFn : DOrder → Except String (Option CheckConfirmation))
    (req : OrderRequest)
    (h : (req.order_type = "LIMIT" ∧ req.price = none) ∨
         (req.order_type = "STOP_LOSS" ∧ req.stop_price = none) ∨
         (req.order_type = "STOP_LIMIT" ∧ (req.price = none ∨ req.stop_price = none))) :
    (check_order checkFn req).1.valid = false ∧
    (check_order checkFn req).1.errors ≠ [] ∧
    (check_order checkFn req).2 = 0 := by
  obtain ⟨e, he⟩ := create_degiro_order_err req (parseOrderType_err req h)
  unfold check_order
  rw [he]
  exact ⟨rfl, by simp, rfl⟩

/-- Witness for C8: a LIMIT order with no price is rejected with errors and
zero broker calls. -/
theorem c8_local_rejection_witness :
    (check_order (fun _ => Except.ok none)
        ⟨"123", "BUY", "LIMIT", 1, none, none, "DAY"⟩).1.valid = false ∧
    (check_order (fun _ => Except.ok none)
        ⟨"123", "BUY", "LIMIT", 1, none, none, "DAY"⟩).1.errors ≠ [] ∧
    (check_order (fun _ => Except.ok none)
        ⟨"123", "BUY", "LIMIT", 1, none, none, "DAY"⟩).2 = 0 :=
  c8_local_rejection _ _ (Or.inl ⟨rfl, rfl⟩)

/-- C5: when every network attempt fails with an error classified as session
expiry, the volume fetch performs at most two attempts (the original call
plus one depth-guarded reconnect retry) and ends in a hard error. -/
theorem c5_reconnect_bound (attempt : Nat → Except String α)
    (reconnect : Except String Unit)
    (h : ∀ d, ∃ e, attempt d = Except.error e ∧ is_session_expired e = true) :
    (∃ msg, (getVolumeData attempt reconnect 0).1 = Except.error msg) ∧
    (getVolumeData attempt reconnect 0).2 ≤ 2 := by
  obtain ⟨e0, he0, hx0⟩ := h 0
  obtain ⟨e1, he1, hx1⟩ := h 1
  have h1 : getVolumeData attempt reconnect 1 =
      (Except.error ("Volume data fetch failed: " ++ e1), 1) := by
    rw [getVolumeData.eq_def]
    simp only [he1]
    rw [dif_neg (show ¬ (is_session_expired e1 = true ∧ (1 : Nat) = 0) from
      fun hcon => one_ne_zero hcon.2)]
  rw [getVolumeData.eq_def]
  simp only [he0]
  rw [dif_pos (show is_session_expired e0 = true ∧ True from ⟨hx0, trivial⟩)]
  cases reconnect with
  | ok u =>
    rw [if_pos (show (Except.ok u).isOk = true from rfl), h1]
    exact ⟨⟨_, rfl⟩, by norm_num⟩
  | error re =>
    rw [if_neg (show ¬ (Except.error re).isOk = true from fun hcon => by exact nomatch hcon)]
    exact ⟨⟨_, rfl⟩, by norm_num⟩

/-- Witness for C5: attempts that always fail with "401 unauthorized" lead to
a hard error after at most two attempts. -/
theorem c5_reconnect_bound_witness :
    (∃ msg, (getVolumeData (fun _ => (Except.error "401 unauthorized" : Except String Unit))
        (Except.ok ()) 0).1 = Except.error msg) ∧
    (getVolumeData (fun _ => (Except.error "401 unauthorized" : Except String Unit))
        (Except.ok ()) 0).2 ≤ 2 :=
  c5_reconnect_bound _ _ (fun _ => ⟨"401 unauthorized", rfl, by decide⟩)

/-- Every product kept by the filter loop was already accumulated or satisfies
the range, direction and tradability predicate. -/
theorem filterLevGo_mem (minL maxL : ℚ) (dir : String) (lim : Nat) :
    ∀ (rest acc : List LevProduct) (p : LevProduct),
      p ∈ filterLevGo minL maxL dir lim rest acc →
      p ∈ acc ∨ (minL ≤ p.leverage ∧ p.leverage ≤ maxL ∧ p.shortlong = dir ∧
        p.tradable = true) := by
  intro rest
  induction rest with
  | nil =>
    intro acc p hp
    simp only [filterLevGo] at hp
    exact Or.inl hp
  | cons q t ih =>
    intro acc p hp
    simp only [filterLevGo] at hp
    by_cases hq : minL ≤ q.leverage ∧ q.leverage ≤ maxL ∧ q.shortlong = dir ∧
        q.tradable = true
    · rw [if_pos hq] at hp
      by_cases hl : lim ≤ (acc ++ [q]).length
      · rw [if_pos hl] at hp
        rcases List.mem_append.mp hp with h1 | h1
        · exact Or.inl h1
        · rw [List.mem_singleton] at h1
          subst h1
          exact Or.inr hq
      · rw [if_neg hl] at hp
        rcases ih (acc ++ [q]) p hp with h1 | h1
        · rcases List.mem_append.mp h1 with h2 | h2
          · exact Or.inl h2
          · rw [List.mem_singleton] at h2
            subst h2
            exact Or.inr hq
        · exact Or.inr h1
    · rw [if_neg hq] at hp
      by_cases hl : lim ≤ acc.length
      · rw [if_pos hl] at hp
        exact Or.inl hp
      · rw [if_neg hl] at hp
        exact ih acc p hp

/-- C4: every product emitted by the leveraged-search filter lies in the
requested leverage range, has the requested direction code (L for LONG, S for
SHORT) and is tradable; and the spec scenario (mixed set 3.2L, 4.4L, 4.4S,
6.0L, range 4 to 5, direction LONG) returns exactly the 4.4 LONG product. -/
theorem c4_filter_sound :
    (∀ (products : List LevProduct) (minL maxL : ℚ) (action : String) (lim : Nat)
      (p : LevProduct), p ∈ filterLev products minL maxL action lim →
        minL ≤ p.leverage ∧ p.leverage ≤ maxL ∧ p.shortlong = targetDirection action ∧
        p.tradable = true) ∧
    filterLev
      [⟨"P32L", mkRat 16 5, "L", true⟩, ⟨"P44L", mkRat 22 5, "L", true⟩,
        ⟨"P44S", mkRat 22 5, "S", true⟩, ⟨"P60L", 6, "L", true⟩] 4 5 "LONG" 10 =
      [⟨"P44L", mkRat 22 5, "L", true⟩] := by
  constructor
  · intro products minL maxL action lim p hp
    rcases filterLevGo_mem minL maxL (targetDirection action) lim products [] p hp with
      hin | hpred
    · exact absurd hin (List.not_mem_nil p)
    · exact hpred
  · decide

/-- Witness for C4: the 4.4 LONG product of the scenario is in the filter
output and satisfies the predicate. -/
theorem c4_filter_sound_witness :
    (4 : ℚ) ≤ mkRat 22 5 ∧ mkRat 22 5 ≤ 5 ∧ ("L" : String) = targetDirection "LONG" ∧
      true = true :=
  c4_filter_sound.1
    [⟨"P32L", mkRat 16 5, "L", true⟩, ⟨"P44L", mkRat 22 5, "L", true⟩,
      ⟨"P44S", mkRat 22 5, "S", true⟩, ⟨"P60L", 6, "L", true⟩]
    4 5 "LONG" 10 ⟨"P44L", mkRat 22 5, "L", true⟩ (by decide)

/-- Tie-break component of the sort key is the absolute distance to target. -/
theorem leverage_priority_snd (t lev : ℚ) : (leverage_priority t lev).2 = |lev - t| := by
  unfold leverage_priority
  split_ifs <;> rfl

/-- The lexicographic key comparison is transitive. -/
theorem keyLeB_trans (x y z : Nat × ℚ) (hxy : keyLeB x y = true)
    (hyz : keyLeB y z = true) : keyLeB x z = true := by
  simp only [keyLeB, Bool.or_eq_true, Bool.and_eq_true, decide_eq_true_eq] at *
  rcases hxy with h1 | ⟨h1, h2⟩ <;> rcases hyz with h3 | ⟨h3, h4⟩
  · exact Or.inl (by omega)
  · exact Or.inl (by omega)
  · exact Or.inl (by omega)
  · exact Or.inr ⟨by omega, le_trans h2 h4⟩

/-- The lexicographic key comparison is total. -/
theorem keyLeB_total (x y : Nat × ℚ) : (keyLeB x y || keyLeB y x) = true := by
  simp only [keyLeB, Bool.or_eq_true, Bool.and_eq_true, decide_eq_true_eq]
  rcases Nat.lt_trichotomy x.1 y.1 with h | h | h
  · exact Or.inl (Or.inl h)
  · rcases le_total x.2 y.2 with h2 | h2
    · exact Or.inl (Or.inr ⟨h, h2⟩)
    · exact Or.inr (Or.inr ⟨h.symm, h2⟩)
  · exact Or.inr (Or.inl h)

/-- C6 counterexample: for target 10, a product of leverage 10 lies within
half a point of the target, yet the ranking places it in tier 3, not tier 0 —
the code's tiers are the fixed bands 4 to 5, 3 to 4, 5 to 7, independent of
the target. -/
theorem c6_counterexample :
    (leverage_priority 10 10).1 = 3 ∧ (10 : ℚ) - 1 / 2 ≤ 10 ∧ (10 : ℚ) ≤ 10 + 1 / 2 :=
  ⟨by decide, by norm_num, by norm_num⟩

/-- C6 (amended): the tiered ranking places a product in tier 0 iff its
leverage lies in the fixed band 4 to 5 (inclusive), tier 1 iff in 3 to 4
(half-open), tier 2 iff in 5 to 7 (half-open above), tier 3 otherwise — the
bands do not depend on the target; within a tier the stable sort orders
products by absolute distance to the target, ascending. -/
theorem c6_tiered_ranking :
    (∀ target lev : ℚ,
      ((leverage_priority target lev).1 = 0 ↔ 4 ≤ lev ∧ lev ≤ 5) ∧
      ((leverage_priority target lev).1 = 1 ↔ 3 ≤ lev ∧ lev < 4) ∧
      ((leverage_priority target lev).1 = 2 ↔ 5 < lev ∧ lev ≤ 7) ∧
      ((leverage_priority target lev).1 = 3 ↔
        ¬(4 ≤ lev ∧ lev ≤ 5) ∧ ¬(3 ≤ lev ∧ lev < 4) ∧ ¬(5 < lev ∧ lev ≤ 7)) ∧
      (leverage_priority target lev).2 = |lev - target|) ∧
    (∀ (target : ℚ) (ps : List LevProduct),
      (sortByPriority target ps).Pairwise (fun a b =>
        (leverage_priority target a.leverage).1 = (leverage_priority target b.leverage).1 →
          |a.leverage - target| ≤ |b.leverage - target|)) := by
  constructor
  · intro t lev
    unfold leverage_priority
    split_ifs with h1 h2 h3
    · exact ⟨iff_of_true rfl h1,
        iff_of_false (by norm_num) (fun hc => by rcases h1 with ⟨a1, b1⟩; rcases hc with ⟨c1, d1⟩; linarith),
        iff_of_false (by norm_num) (fun hc => by rcases h1 with ⟨a1, b1⟩; rcases hc with ⟨c1, d1⟩; linarith),
        iff_of_false (by norm_num) (fun hc => hc.1 h1), rfl⟩
    · exact ⟨iff_of_false (by norm_num) h1, iff_of_true rfl h2,
        iff_of_false (by norm_num) (fun hc => by rcases h2 with ⟨a1, b1⟩; rcases hc with ⟨c1, d1⟩; linarith),
        iff_of_false (by norm_num) (fun hc => hc.2.1 h2), rfl⟩
    · exact ⟨iff_of_false (by norm_num) h1, iff_of_false (by norm_num) h2,
        iff_of_true rfl h3,
        iff_of_false (by norm_num) (fun hc => hc.2.2 h3), rfl⟩
    · exact ⟨iff_of_false (by norm_num) h1, iff_of_false (by norm_num) h2,
        iff_of_false (by norm_num) h3, iff_of_true rfl ⟨h1, h2, h3⟩, rfl⟩
  · intro t ps
    unfold sortByPriority
    have hs := @List.sorted_mergeSort LevProduct
      (fun a b => keyLeB (leverage_priority t a.leverage) (leverage_priority t b.leverage))
      (fun a b c hab hbc => keyLeB_trans _ _ _ hab hbc)
      (fun a b => keyLeB_total _ _) ps
    refine List.Pairwise.imp ?_ hs
    intro a b hab htier
    simp only [keyLeB, Bool.or_eq_true, Bool.and_eq_true, decide_eq_true_eq] at hab
    rcases hab with h | ⟨h, h2⟩
    · exact absurd htier (Nat.ne_of_lt h)
    · rw [leverage_priority_snd, leverage_priority_snd] at h2
      exact h2

/-- C7 counterexample: with no ISIN, exact-symbol or name match, the claimed
strategy order would return the candidate whose symbol contains the query,
but `search_stock_universal` has no such strategy and falls back to the first
result instead. -/
theorem c7_counterexample :
    searchStockUniversal [⟨"I1", "ZZZ", "Alpha"⟩, ⟨"I2", "XOOX", "Beta"⟩] "oo" =
      some ⟨"I1", "ZZZ", "Alpha"⟩ ∧
    resolveClaimed [⟨"I1", "ZZZ", "Alpha"⟩, ⟨"I2", "XOOX", "Beta"⟩] "oo" =
      some ⟨"I2", "XOOX", "Beta"⟩ ∧
    (⟨"I1", "ZZZ", "Alpha"⟩ : StockProduct) ≠ ⟨"I2", "XOOX", "Beta"⟩ :=
  ⟨by decide, by decide, by decide⟩

/-- The four-strategy fallback chain never fails on a nonempty candidate list. -/
theorem resolveAmended_ne_none (a : StockProduct) (t : List StockProduct) (q : String) :
    resolveAmended (a :: t) q ≠ none := by
  unfold resolveAmended
  intro hn
  cases h1 : (List.filter (fun p => p.isin == q) (a :: t)).head? with
  | some p1 => rw [h1] at hn; exact Option.noConfusion hn
  | none =>
    rw [h1] at hn
    cases h2 : (List.filter (fun p => p.symbol == ucStr q) (a :: t)).head? with
    | some p2 => rw [h2] at hn; exact Option.noConfusion hn
    | none =>
      rw [h2] at hn
      cases h3 : (List.filter
          (fun p => strContains (lcStr p.name) (lcStr q)) (a :: t)).head? with
      | some p3 => rw [h3] at hn; exact Option.noConfusion hn
      | none =>
        rw [h3] at hn
        exact Option.noConfusion hn

/-- C7 (amended): the universal stock resolver tries, in order, exact ISIN
equality, exact symbol equality against the upper-cased query, and
case-insensitive substring match of the query inside the instrument name,
falling back to the first search result (there is no substring-in-symbol
strategy), and it returns none exactly when the candidate list is empty. -/
theorem c7_resolver_order (products : List StockProduct) (query : String) :
    searchStockUniversal products query = resolveAmended products query ∧
    (searchStockUniversal products query = none ↔ products = []) := by
  cases products with
  | nil =>
    refine ⟨rfl, ⟨fun _ => rfl, fun _ => rfl⟩⟩
  | cons a t =>
    have hmain : searchStockUniversal (a :: t) query = resolveAmended (a :: t) query := by
      unfold searchStockUniversal resolveAmended
      rw [if_neg (by simp)]
      simp only [find?_eq_filter_head?]
      cases h1 : (List.filter (fun p => p.isin == query) (a :: t)).head? with
      | some p1 => simp only [h1]; rfl
      | none =>
        simp only [h1]
        cases h2 : (List.filter (fun p => p.symbol == ucStr query) (a :: t)).head? with
        | some p2 => simp only [h2]; rfl
        | none =>
          simp only [h2]
          cases h3 : (List.filter
              (fun p => strContains (lcStr p.name) (lcStr query)) (a :: t)).head? with
          | some p3 => simp only [h3]; rfl
          | none => simp only [h3]; rfl
    refine ⟨hmain, ?_⟩
    rw [hmain]
    constructor
    · intro hn
      exact absurd hn (resolveAmended_ne_none a t query)
    · intro hc
      exact absurd hc (by simp)

/-- Invariant of the pagination loop: with a positive page size, a total equal
to the catalog size, and an accumulator holding exactly the first `offset`
items, the loop returns the accumulator followed by everything from `offset`
on. -/
theorem fetchPages_drop (pageSize : Nat) (hps : 0 < pageSize) (items : List α) :
    ∀ (n offset : Nat) (acc : List α), items.length - offset = n → acc.length = offset →
      fetchPages items pageSize items.length offset acc = acc ++ items.drop offset := by
  intro n
  induction n using Nat.strong_induction_on with
  | _ n ih =>
    intro offset acc hn hacc
    rw [fetchPages]
    by_cases hemp : ((items.drop offset).take pageSize).isEmpty
    · rw [if_pos hemp]
      have hdz : items.drop offset = [] := by
        rw [List.isEmpty_iff, List.take_eq_nil_iff] at hemp
        rcases hemp with h | h
        · omega
        · exact h
      rw [hdz, List.append_nil]
    · rw [if_neg hemp]
      simp only []
      have hlen0 : items.drop offset ≠ [] := by
        intro hcon
        apply hemp
        rw [List.isEmpty_iff, List.take_eq_nil_iff]
        exact Or.inr hcon
      have hoff : offset < items.length := by
        rcases lt_or_ge offset items.length with h | h
        · exact h
        · exact absurd (List.drop_eq_nil_iff.mpr h) hlen0
      have hplen : ((items.drop offset).take pageSize).length =
          min pageSize (items.length - offset) := by
        rw [List.length_take, List.length_drop]
      have hacclen : (acc ++ (items.drop offset).take pageSize).length =
          offset + ((items.drop offset).take pageSize).length := by
        rw [List.length_append, hacc]
      by_cases hstop : items.length ≠ 0 ∧
          items.length ≤ (acc ++ (items.drop offset).take pageSize).length
      · rw [if_pos hstop]
        have h2 : items.length ≤ offset + ((items.drop offset).take pageSize).length := by
          rw [← hacclen]
          exact hstop.2
        have h3 : ((items.drop offset).take pageSize).length ≤ items.length - offset := by
          rw [hplen]
          omega
        have h5 : (items.drop offset).length ≤ pageSize := by
          rw [List.length_drop]
          rw [hplen] at h2 h3
          omega
        rw [List.take_of_length_le h5]
      · rw [if_neg hstop]
        have hlennz : items.length ≠ 0 := by omega
        have h2 : ¬ items.length ≤ offset + ((items.drop offset).take pageSize).length := by
          intro hcon
          exact hstop ⟨hlennz, by rw [hacclen]; exact hcon⟩
        have h3 : ((items.drop offset).take pageSize).length = pageSize := by
          rcases Nat.le_total pageSize (items.length - offset) with hc | hc
        <;> rw [hplen]
          · exact Nat.min_eq_left hc
          · exfalso
            apply h2
            rw [hplen, Nat.min_eq_right hc]
            omega
        have h4 : offset + pageSize ≤ items.length := by
          rw [hplen] at h3
          omega
        have ih' := ih (items.length - (offset + pageSize)) (by omega) (offset + pageSize)
          (acc ++ (items.drop offset).take pageSize) rfl (by rw [hacclen, h3])
        rw [ih', List.append_assoc]
        congr 1
        rw [← List.drop_drop, List.take_append_drop]

/-- C3: for a well-behaved catalog of T items served as disjoint slices of at
most `pageSize` items and reporting total T, the pagination loop concatenates
all pages into exactly the catalog: the result is the full item list, hence
exactly T items with no duplication and no loss. -/
theorem c3_pagination_exhaustive (items : List α) (pageSize : Nat) (hps : 0 < pageSize) :
    fetchPages items pageSize items.length 0 [] = items ∧
    (fetchPages items pageSize items.length 0 []).length = items.length := by
  have h := fetchPages_drop pageSize hps items (items.length - 0) 0 [] rfl rfl
  rw [List.drop_zero, List.nil_append] at h
  exact ⟨h, by rw [h]⟩

/-- Witness for C3 at the spec scenario: a catalog of 247 items fetched in
pages of 100 (pages of 100, 100 and 47) yields exactly 247 concatenated
items. -/
theorem c3_pagination_exhaustive_witness :
    fetchPages (List.range 247) 100 (List.range 247).length 0 [] = List.range 247 ∧
    (fetchPages (List.range 247) 100 (List.range 247).length 0 []).length = 247 := by
  have h := c3_pagination_exhaustive (List.range 247) 100 (by decide)
  exact ⟨h.1, by rw [h.2, List.length_range]⟩

/-- In the mismatch case (row count differs from resolved-id count) every map
entry produced by the row loop is keyed by the first resolved product id. -/
theorem extractGo_mismatch (ids : List String) (total : Nat) (htot : ¬ total = ids.length) :
    ∀ (rest : List PriceRow) (i : Nat) (m : String → Option PriceInfo),
      (∀ k pi, m k = some pi → ids.head? = some k) →
      ∀ k pi, extractGo ids total rest i m k = some pi → ids.head? = some k := by
  intro rest
  induction rest with
  | nil =>
    intro i m hm k pi h
    simp only [extractGo] at h
    exact hm k pi h
  | cons r t ih =>
    intro i m hm k pi h
    simp only [extractGo] at h
    refine ih (i + 1) _ ?_ k pi h
    intro k2 pi2 h2
    rw [if_neg htot] at h2
    by_cases hlast : r.last.isSome
    · rw [if_pos hlast] at h2
      cases hh : ids.head? with
      | none =>
        simp only [hh] at h2
        have hr2 := hm k2 pi2 h2
        rw [hh] at hr2
        exact hr2
      | some pid =>
        simp only [hh] at h2
        by_cases hpe : pid = ""
        · rw [if_pos hpe] at h2
          have hr2 := hm k2 pi2 h2
          rw [hh] at hr2
          exact hr2
        · rw [if_neg hpe] at h2
          by_cases hk : pid = k2
          · rw [hk]
          · rw [Function.update_noteq (fun he => hk he.symm)] at h2
            have hr2 := hm k2 pi2 h2
            rw [hh] at hr2
            exact hr2
    · rw [if_neg hlast] at h2
      exact hm k2 pi2 h2

/-- C10: when the number of decoded price rows differs from the number of
resolved product ids, every entry of the returned map is keyed by the first
resolved id, so the map has at most one key; concretely, a single row sourced
from instrument 2 is booked under product id 1. -/
theorem c10_positional_fallback :
    (∀ (rows : List PriceRow) (ids : List String) (k : String) (pi : PriceInfo),
      ¬ rows.length = ids.length → extractPrices rows ids k = some pi →
      ids.head? = some k) ∧
    (∀ (rows : List PriceRow) (ids : List String) (k1 k2 : String)
      (pi1 pi2 : PriceInfo), ¬ rows.length = ids.length →
      extractPrices rows ids k1 = some pi1 → extractPrices rows ids k2 = some pi2 →
      k1 = k2) ∧
    (extractPrices [⟨"2", some 5, none, none⟩] ["1", "2"] "1" =
      some (mkPriceInfo ⟨"2", some 5, none, none⟩) ∧
      (∀ r ∈ [(⟨"2", some 5, none, none⟩ : PriceRow)], r.source ≠ "1")) := by
  have hmain : ∀ (rows : List PriceRow) (ids : List String) (k : String) (pi : PriceInfo),
      ¬ rows.length = ids.length → extractPrices rows ids k = some pi →
      ids.head? = some k := by
    intro rows ids k pi hne h
    exact extractGo_mismatch ids rows.length hne rows 0 _
      (fun k2 pi2 h2 => absurd h2 (by simp)) k pi h
  refine ⟨hmain, ?_, rfl, by decide⟩
  intro rows ids k1 k2 pi1 pi2 hne h1 h2
  have e1 := hmain rows ids k1 pi1 hne h1
  have e2 := hmain rows ids k2 pi2 hne h2
  rw [e1] at e2
  exact Option.some.inj e2

/-- Witness for C10: in the concrete mismatch scenario the only key is the
first resolved id. -/
theorem c10_positional_fallback_witness : (["1", "2"] : List String).head? = some "1" :=
  c10_positional_fallback.1 [⟨"2", some 5, none, none⟩] ["1", "2"] "1"
    (mkPriceInfo ⟨"2", some 5, none, none⟩) (by decide) rfl

/-- In the matched case (row count equals resolved-id count, row i belonging
to resolved id i) every map entry comes from a row of the keyed instrument
whose LastPrice decoded. -/
theorem extractGo_matched (ids : List String) (fullRows : List PriceRow) (total : Nat)
    (htot : total = ids.length) :
    ∀ (rest : List PriceRow) (i : Nat) (m : String → Option PriceInfo),
      (∀ k pi, m k = some pi → ∃ r ∈ fullRows, r.source = k ∧ r.last.isSome = true ∧
        pi = mkPriceInfo r) →
      (∀ j rj, rest.get? j = some rj → ids.get? (i + j) = some rj.source ∧ rj ∈ fullRows) →
      ∀ k pi, extractGo ids total rest i m k = some pi →
        ∃ r ∈ fullRows, r.source = k ∧ r.last.isSome = true ∧ pi = mkPriceInfo r := by
  intro rest
  induction rest with
  | nil =>
    intro i m hm _ k pi h
    simp only [extractGo] at h
    exact hm k pi h
  | cons r t ih =>
    intro i m hm halign k pi h
    simp only [extractGo] at h
    refine ih (i + 1) _ ?_ ?_ k pi h
    · intro k2 pi2 h2
      rw [if_pos htot] at h2
      have h0 := halign 0 r rfl
      by_cases hlast : r.last.isSome
      · rw [if_pos hlast] at h2
        have hgi : ids.get? i = some r.source := by
          have := h0.1
          rwa [Nat.add_zero] at this
        simp only [hgi] at h2
        by_cases hpe : r.source = ""
        · rw [if_pos hpe] at h2
          exact hm k2 pi2 h2
        · rw [if_neg hpe] at h2
          by_cases hk : r.source = k2
          · subst hk
            rw [Function.update_same] at h2
            exact ⟨r, h0.2, rfl, hlast, (Option.some.inj h2).symm⟩
          · rw [Function.update_noteq (fun he => hk he.symm)] at h2
            exact hm k2 pi2 h2
      · rw [if_neg hlast] at h2
        exact hm k2 pi2 h2
    · intro j rj hj
      have hstep := halign (j + 1) rj hj
      rw [show i + (j + 1) = i + 1 + j from by omega] at hstep
      exact hstep

/-- C2 (amended): when the decoded rows correspond positionally to the
resolved product ids (equal counts, row i sourced from id i), every entry of
the map returned by the batch price extraction is keyed by a resolved product
id whose own row decoded a LastPrice, and its bid, ask and last fields are
exactly the (rounded) wire values of that row — absent wire values stay
`none`, and products with no decoded row are absent from the map. -/
theorem c2_no_fabrication (rows : List PriceRow) (ids : List String)
    (hlen : rows.length = ids.length)
    (hsrc : ∀ i, i < rows.length → (rows.get? i).map PriceRow.source = ids.get? i) :
    ∀ k pi, extractPrices rows ids k = some pi →
      ∃ r ∈ rows, r.source = k ∧ r.last.isSome = true ∧
        pi.bid = Option.map round2 r.bid ∧ pi.ask = Option.map round2 r.ask ∧
        pi.last = Option.map round2 r.last := by
  intro k pi h
  have halign : ∀ j rj, rows.get? j = some rj →
      ids.get? (0 + j) = some rj.source ∧ rj ∈ rows := by
    intro j rj hj
    have hjlen : j < rows.length := by
      by_contra hcon
      push_neg at hcon
      rw [List.get?_eq_none.mpr hcon] at hj
      exact Option.noConfusion hj
    constructor
    · have := hsrc j hjlen
      rw [hj] at this
      rw [Nat.zero_add]
      exact this.symm
    · exact List.get?_mem hj
  obtain ⟨r, hr, hsrc2, hlast, hpi⟩ :=
    extractGo_matched ids rows rows.length hlen rows 0 (fun _ => none)
      (fun k2 pi2 h2 => absurd h2 (by simp)) halign k pi h
  subst hpi
  exact ⟨r, hr, hsrc2, hlast, rfl, rfl, rfl⟩

/-- Witness for C2: one matched row for product 10 with LastPrice 5 and
BidPrice 3 produces exactly that entry, with ask staying none. -/
theorem c2_no_fabrication_witness :
    ∃ r ∈ [(⟨"10", some 5, some 3, none⟩ : PriceRow)], r.source = "10" ∧
      r.last.isSome = true ∧
      (mkPriceInfo ⟨"10", some 5, some 3, none⟩).bid = Option.map round2 r.bid ∧
      (mkPriceInfo ⟨"10", some 5, some 3, none⟩).ask = Option.map round2 r.ask ∧
      (mkPriceInfo ⟨"10", some 5, some 3, none⟩).last = Option.map round2 r.last :=
  c2_no_fabrication [⟨"10", some 5, some 3, none⟩] ["10"] rfl (by decide) "10"
    (mkPriceInfo ⟨"10", some 5, some 3, none⟩) rfl

/-- C2 counterexample: with two resolved products but a single decoded row
sourced from the second instrument, the map keys the first product id with
the other instrument's prices, while the instrument that actually decoded is
absent — so a key is not a product with its own decoded LastPrice. -/
theorem c2_counterexample :
    extractPrices [⟨"2", some 5, none, none⟩] ["1", "2"] "1" =
      some (mkPriceInfo ⟨"2", some 5, none, none⟩) ∧
    (∀ r ∈ [(⟨"2", some 5, none, none⟩ : PriceRow)], r.source ≠ "1") ∧
    extractPrices [⟨"2", some 5, none, none⟩] ["1", "2"] "2" = none :=
  ⟨rfl, by decide, rfl⟩

/-- Inserting a fresh key into a Python dict appends the binding. -/
theorem dictInsert_fresh (m : List (Nat × β)) (k : Nat) (v : β)
    (hk : k ∉ m.map Prod.fst) : dictInsert m k v = m ++ [(k, v)] := by
  unfold dictInsert
  rw [if_neg]
  intro hcon
  rw [List.any_eq_true] at hcon
  obtain ⟨p, hp, hpk⟩ := hcon
  apply hk
  rw [List.mem_map]
  exact ⟨p, hp, by simpa using hpk⟩

/-- When all keys registered by the frame are fresh and pairwise distinct, the
single decode pass appends exactly the projections of the records to the two
accumulated dicts. -/
theorem decode_foldl_eq (vwd : String) :
    ∀ (l : List WireRecord) (fm : List (Nat × String)) (vs : List (Nat × WireVal)),
      (fm.map Prod.fst ++ (l.filterMap (aReqProj vwd)).map Prod.fst).Nodup →
      (vs.map Prod.fst ++ (l.filterMap valProj).map Prod.fst).Nodup →
      l.foldl (decodeStep vwd) (fm, vs) =
        (fm ++ l.filterMap (aReqProj vwd), vs ++ l.filterMap valProj) := by
  intro l
  induction l with
  | nil =>
    intro fm vs _ _
    simp
  | cons r t ih =>
    intro fm vs h1 h2
    cases r with
    | areq name fid =>
      have hvfil : (WireRecord.areq name fid :: t).filterMap valProj =
          t.filterMap valProj := by
        simp [List.filterMap_cons, valProj]
      by_cases hs : strStarts name vwd = true
      · have hfil : (WireRecord.areq name fid :: t).filterMap (aReqProj vwd) =
            (fid, shortNameOf name) :: t.filterMap (aReqProj vwd) := by
          simp [List.filterMap_cons, aReqProj, hs]
        rw [hfil] at h1 ⊢
        rw [hvfil] at h2 ⊢
        have h1' : ((fm ++ [(fid, shortNameOf name)]).map Prod.fst ++
            (t.filterMap (aReqProj vwd)).map Prod.fst).Nodup := by
          rw [List.map_append, List.append_assoc]
          simpa using h1
        have hfresh : fid ∉ fm.map Prod.fst := by
          intro hcon
          rw [List.nodup_append] at h1
          exact h1.2.2 hcon (by simp)
        rw [List.foldl_cons]
        have hstep : decodeStep vwd (fm, vs) (WireRecord.areq name fid) =
            (fm ++ [(fid, shortNameOf name)], vs) := by
          simp only [decodeStep, if_pos hs]
          rw [dictInsert_fresh fm fid _ hfresh]
        rw [hstep, ih (fm ++ [(fid, shortNameOf name)]) vs h1' h2]
        rw [List.append_assoc]
        rfl
      · have hfil : (WireRecord.areq name fid :: t).filterMap (aReqProj vwd) =
            t.filterMap (aReqProj vwd) := by
          simp [List.filterMap_cons, aReqProj, hs]
        rw [hfil] at h1 ⊢
        rw [hvfil] at h2 ⊢
        rw [List.foldl_cons]
        have hstep : decodeStep vwd (fm, vs) (WireRecord.areq name fid) = (fm, vs) := by
          simp only [decodeStep, if_neg hs]
        rw [hstep, ih fm vs h1 h2]
    | un fid v =>
      have hfil : (WireRecord.un fid v :: t).filterMap (aReqProj vwd) =
          t.filterMap (aReqProj vwd) := by
        simp [List.filterMap_cons, aReqProj]
      have hvfil : (WireRecord.un fid v :: t).filterMap valProj =
          (fid, WireVal.num v) :: t.filterMap valProj := by
        simp [List.filterMap_cons, valProj]
      rw [hfil] at h1 ⊢
      rw [hvfil] at h2 ⊢
      have h2' : ((vs ++ [(fid, WireVal.num v)]).map Prod.fst ++
          (t.filterMap valProj).map Prod.fst).Nodup := by
        rw [List.map_append, List.append_assoc]
        simpa using h2
      have hfresh : fid ∉ vs.map Prod.fst := by
        intro hcon
        rw [List.nodup_append] at h2
        exact h2.2.2 hcon (by simp)
      rw [List.foldl_cons]
      have hstep : decodeStep vwd (fm, vs) (WireRecord.un fid v) =
          (fm, vs ++ [(fid, WireVal.num v)]) := by
        simp only [decodeStep]
        rw [dictInsert_fresh vs fid _ hfresh]
      rw [hstep, ih fm (vs ++ [(fid, WireVal.num v)]) h1 h2']
      rw [List.append_assoc]
      rfl
    | us fid v =>
      have hfil : (WireRecord.us fid v :: t).filterMap (aReqProj vwd) =
          t.filterMap (aReqProj vwd) := by
        simp [List.filterMap_cons, aReqProj]
      have hvfil : (WireRecord.us fid v :: t).filterMap valProj =
          (fid, WireVal.str v) :: t.filterMap valProj := by
        simp [List.filterMap_cons, valProj]
      rw [hfil] at h1 ⊢
      rw [hvfil] at h2 ⊢
      have h2' : ((vs ++ [(fid, WireVal.str v)]).map Prod.fst ++
          (t.filterMap valProj).map Prod.fst).Nodup := by
        rw [List.map_append, List.append_assoc]
        simpa using h2
      have hfresh : fid ∉ vs.map Prod.fst := by
        intro hcon
        rw [List.nodup_append] at h2
        exact h2.2.2 hcon (by simp)
      rw [List.foldl_cons]
      have hstep : decodeStep vwd (fm, vs) (WireRecord.us fid v) =
          (fm, vs ++ [(fid, WireVal.str v)]) := by
        simp only [decodeStep]
        rw [dictInsert_fresh vs fid _ hfresh]
      rw [hstep, ih fm (vs ++ [(fid, WireVal.str v)]) h1 h2']
      rw [List.append_assoc]
      rfl

/-- Under distinct registered field ids and distinct value-record field ids,
the two dicts built by the decode pass are exactly the record projections. -/
theorem decodeFrame_eq (l : List WireRecord) (vwd : String)
    (h1 : ((l.filterMap (aReqProj vwd)).map Prod.fst).Nodup)
    (h2 : ((l.filterMap valProj).map Prod.fst).Nodup) :
    decodeFrame l vwd = (l.filterMap (aReqProj vwd), l.filterMap valProj) := by
  unfold decodeFrame
  have := decode_foldl_eq vwd l [] [] (by simpa using h1) (by simpa using h2)
  simpa using this

/-- A successful dict lookup returns a binding of the list. -/
theorem dictGet_some_mem {m : List (Nat × β)} {k : Nat} {v : β}
    (h : dictGet m k = some v) : (k, v) ∈ m := by
  unfold dictGet at h
  cases hf : m.find? (fun p => p.1 == k) with
  | none =>
    rw [hf] at h
    exact Option.noConfusion h
  | some p =>
    rw [hf] at h
    have hp1 : p.1 = k := by simpa using List.find?_some hf
    have hpm : p ∈ m := List.mem_of_find?_eq_some hf
    have hv : p.2 = v := by simpa using h
    have hpkv : p = (k, v) := Prod.ext hp1 hv
    rw [← hpkv]
    exact hpm

/-- A dict lookup fails exactly when the key has no binding. -/
theorem dictGet_none_iff {m : List (Nat × β)} {k : Nat} :
    dictGet m k = none ↔ ∀ v, (k, v) ∉ m := by
  unfold dictGet
  constructor
  · intro h v hv
    cases hf : m.find? (fun p => p.1 == k) with
    | some p =>
      rw [hf] at h
      exact Option.noConfusion h
    | none =>
      rw [List.find?_eq_none] at hf
      exact hf (k, v) hv (by simp)
  · intro hall
    cases hf : m.find? (fun p => p.1 == k) with
    | none => rfl
    | some p =>
      have hp1 : p.1 = k := by simpa using List.find?_some hf
      have hpm := List.mem_of_find?_eq_some hf
      exfalso
      apply hall p.2
      have hpkv : p = (k, p.2) := Prod.ext hp1 rfl
      rw [← hpkv]
      exact hpm

/-- With pairwise distinct keys, dict lookup only depends on the bindings as a
set: permuted dicts answer every lookup identically. -/
theorem dictGet_eq_of_perm {m m' : List (Nat × β)} (hp : m.Perm m')
    (hn : (m.map Prod.fst).Nodup) (k : Nat) : dictGet m k = dictGet m' k := by
  cases h1 : dictGet m k with
  | some v =>
    have hmem := dictGet_some_mem h1
    have hmem' : (k, v) ∈ m' := hp.mem_iff.mp hmem
    cases h2 : dictGet m' k with
    | none =>
      rw [dictGet_none_iff] at h2
      exact absurd hmem' (h2 v)
    | some v2 =>
      have hmem2 := dictGet_some_mem h2
      have hmem2' : (k, v2) ∈ m := hp.mem_iff.mpr hmem2
      have hvv : v = v2 :=
        congrArg Prod.snd (List.inj_on_of_nodup_map hn hmem hmem2' rfl)
      rw [hvv]
  | none =>
    rw [dictGet_none_iff] at h1
    cases h2 : dictGet m' k with
    | none => rfl
    | some v2 =>
      have hmem2 := dictGet_some_mem h2
      exact absurd (hp.mem_iff.mpr hmem2) (h1 v2)

/-- Python `k in d` agrees with the success of the lookup. -/
theorem any_key_eq_isSome (m : List (Nat × β)) (k : Nat) :
    m.any (fun q => q.1 == k) = (dictGet m k).isSome := by
  unfold dictGet
  cases hf : m.find? (fun p => p.1 == k) with
  | none =>
    show m.any (fun q => q.1 == k) = false
    rw [List.any_eq_false]
    intro x hx
    exact List.find?_eq_none.mp hf x hx
  | some p =>
    show m.any (fun q => q.1 == k) = true
    rw [List.any_eq_true]
    exact ⟨p, List.mem_of_find?_eq_some hf, by simpa using List.find?_some hf⟩

/-- Permutation invariance of the decoded field extraction, under pairwise
distinct registered field ids, registered short names and value field ids. -/
theorem decodeField_perm (l l' : List WireRecord) (vwd : String) (hp : l.Perm l')
    (h1 : ((l.filterMap (aReqProj vwd)).map Prod.fst).Nodup)
    (h2 : ((l.filterMap (aReqProj vwd)).map Prod.snd).Nodup)
    (h3 : ((l.filterMap valProj).map Prod.fst).Nodup) (fieldName : String) :
    decodeField l vwd fieldName = decodeField l' vwd fieldName := by
  have hpf : (l.filterMap (aReqProj vwd)).Perm (l'.filterMap (aReqProj vwd)) :=
    hp.filterMap _
  have hpv : (l.filterMap valProj).Perm (l'.filterMap valProj) := hp.filterMap _
  have h1' : ((l'.filterMap (aReqProj vwd)).map Prod.fst).Nodup :=
    ((hpf.map Prod.fst).nodup_iff).mp h1
  have h3' : ((l'.filterMap valProj).map Prod.fst).Nodup :=
    ((hpv.map Prod.fst).nodup_iff).mp h3
  have hget : ∀ k, dictGet (l.filterMap valProj) k = dictGet (l'.filterMap valProj) k :=
    fun k => dictGet_eq_of_perm hpv h3 k
  have hany : ∀ k, (l.filterMap valProj).any (fun q => q.1 == k) =
      (l'.filterMap valProj).any (fun q => q.1 == k) := by
    intro k
    rw [any_key_eq_isSome, any_key_eq_isSome, hget]
  unfold decodeField
  rw [decodeFrame_eq l vwd h1 h3, decodeFrame_eq l' vwd h1' h3']
  simp only []
  have hext : (l'.filterMap (aReqProj vwd)).foldl
      (fun acc p =>
        if p.2 == fieldName && (l'.filterMap valProj).any (fun q => q.1 == p.1) then
          dictGet (l'.filterMap valProj) p.1
        else acc) none =
      (l'.filterMap (aReqProj vwd)).foldl
      (fun acc p =>
        if p.2 == fieldName && (l.filterMap valProj).any (fun q => q.1 == p.1) then
          dictGet (l.filterMap valProj) p.1
        else acc) none := by
    apply List.foldl_ext
    intro acc p _
    rw [hget, hany]
  rw [hext]
  apply List.Perm.foldl_eq' hpf
  intro x hx y hy z
  dsimp only
  by_cases cx : (x.2 == fieldName && (l.filterMap valProj).any (fun q => q.1 == x.1)) = true
  · by_cases cy : (y.2 == fieldName && (l.filterMap valProj).any (fun q => q.1 == y.1)) = true
    · have hx2 : x.2 = fieldName := by
        have := (Bool.and_eq_true _ _).mp cx
        simpa using this.1
      have hy2 : y.2 = fieldName := by
        have := (Bool.and_eq_true _ _).mp cy
        simpa using this.1
      have hxy : x = y :=
        List.inj_on_of_nodup_map h2 hx hy (by rw [hx2, hy2])
      rw [hxy]
    · rw [if_pos cx, if_neg cy]
      rw [if_pos cx]
  · by_cases cy : (y.2 == fieldName && (l.filterMap valProj).any (fun q => q.1 == y.1)) = true
    · rw [if_pos cy, if_neg cx]
      rw [if_pos cy]
    · rw [if_neg cx, if_neg cy, if_neg cx]

/-- C1 (amended): provided the frame registers pairwise distinct field ids and
pairwise distinct short names for the feed of interest, and its value records
carry pairwise distinct field ids, wire-frame decoding yields the same map
from registered short field names to values for every permutation of the
record list — in particular a un/us value record arriving before its a_req
registration is not dropped; and the spec scenario decodes LastPrice 101.25
with BidPrice and AskPrice absent, in either record order. -/
theorem c1_two_pass_decode :
    (∀ (l l' : List WireRecord) (vwd : String), l.Perm l' →
      ((l.filterMap (aReqProj vwd)).map Prod.fst).Nodup →
      ((l.filterMap (aReqProj vwd)).map Prod.snd).Nodup →
      ((l.filterMap valProj).map Prod.fst).Nodup →
      ∀ fieldName, decodeField l vwd fieldName = decodeField l' vwd fieldName) ∧
    (decodeField [WireRecord.areq "X1.LastPrice" 7, WireRecord.un 7 (mkRat 405 4)]
        "X1" "LastPrice" = some (WireVal.num (mkRat 405 4)) ∧
      decodeField [WireRecord.areq "X1.LastPrice" 7, WireRecord.un 7 (mkRat 405 4)]
        "X1" "BidPrice" = none ∧
      decodeField [WireRecord.areq "X1.LastPrice" 7, WireRecord.un 7 (mkRat 405 4)]
        "X1" "AskPrice" = none) ∧
    decodeField [WireRecord.un 7 (mkRat 405 4), WireRecord.areq "X1.LastPrice" 7]
        "X1" "LastPrice" = some (WireVal.num (mkRat 405 4)) :=
  ⟨fun l l' vwd hp h1 h2 h3 fieldName => decodeField_perm l l' vwd hp h1 h2 h3 fieldName,
    ⟨rfl, rfl, rfl⟩, rfl⟩

/-- Witness for C1: a value record placed before its registration decodes to
the same result as the registration-first order. -/
theorem c1_two_pass_decode_witness :
    decodeField [WireRecord.un 7 (mkRat 405 4), WireRecord.areq "X1.LastPrice" 7]
        "X1" "LastPrice" =
      decodeField [WireRecord.areq "X1.LastPrice" 7, WireRecord.un 7 (mkRat 405 4)]
        "X1" "LastPrice" :=
  c1_two_pass_decode.1
    [WireRecord.un 7 (mkRat 405 4), WireRecord.areq "X1.LastPrice" 7]
    [WireRecord.areq "X1.LastPrice" 7, WireRecord.un 7 (mkRat 405 4)]
    "X1" (by decide) (by decide) (by decide) (by decide) "LastPrice"

/-- C1 counterexample: two value records updating the same field id decode to
different results under a permutation of the record list (dict assignment is
last-write-wins), so decoding is not permutation-invariant for arbitrary
frames. -/
theorem c1_counterexample :
    ([WireRecord.areq "X1.V" 7, WireRecord.un 7 1, WireRecord.un 7 2]).Perm
      [WireRecord.areq "X1.V" 7, WireRecord.un 7 2, WireRecord.un 7 1] ∧
    decodeField [WireRecord.areq "X1.V" 7, WireRecord.un 7 1, WireRecord.un 7 2]
        "X1" "V" = some (WireVal.num 2) ∧
    decodeField [WireRecord.areq "X1.V" 7, WireRecord.un 7 2, WireRecord.un 7 1]
        "X1" "V" = some (WireVal.num 1) ∧
    some (WireVal.num (2 : ℚ)) ≠ some (WireVal.num 1) :=
  ⟨by decide, rfl, rfl, by decide⟩
